import Mathlib

/-!
Verification of the component decomposition and assembly choreography core of
src/main.js (class AssemblyAnimation).  JS numbers are idealized as real
numbers; the three.js math routines used by the code (Vector3.lerpVectors,
Quaternion.setFromEuler / slerpQuaternions, Euler.setFromQuaternion,
Box3 union / getCenter / getSize) are embedded from their sources, with the
rotation order fixed to XYZ, the only order the code ever uses.
-/

open Real

noncomputable section

/-- Real triple, embedding THREE.Vector3. -/
@[ext] structure Vec3 where
  x : ℝ
  y : ℝ
  z : ℝ

/-- Euler angles, embedding THREE.Euler with the default XYZ order
(the code never sets any other order). -/
@[ext] structure Euler where
  x : ℝ
  y : ℝ
  z : ℝ

/-- Quaternion, embedding THREE.Quaternion. -/
@[ext] structure Quat where
  x : ℝ
  y : ℝ
  z : ℝ
  w : ℝ

/-- THREE.Vector3.lerpVectors: this = v1 + (v2 - v1) * alpha, componentwise. -/
def lerpVectors (a b : Vec3) (t : ℝ) : Vec3 :=
  ⟨a.x + (b.x - a.x) * t, a.y + (b.y - a.y) * t, a.z + (b.z - a.z) * t⟩

/-- THREE.MathUtils.clamp value min max = Math.max(min, Math.min(max, value)). -/
def clampReal (v lo hi : ℝ) : ℝ := max lo (min hi v)

/-- Math.atan2, by the standard case analysis on the signs of the arguments. -/
def atan2 (y x : ℝ) : ℝ :=
  if 0 < x then Real.arctan (y / x)
  else if x < 0 then
    (if 0 ≤ y then Real.arctan (y / x) + π else Real.arctan (y / x) - π)
  else
    (if 0 < y then π / 2 else if y < 0 then -(π / 2) else 0)

/-- THREE.Quaternion.setFromEuler for order XYZ:
half-angle sines and cosines combined by the XYZ branch. -/
def quatSetFromEuler (e : Euler) : Quat :=
  let c1 := Real.cos (e.x / 2)
  let c2 := Real.cos (e.y / 2)
  let c3 := Real.cos (e.z / 2)
  let s1 := Real.sin (e.x / 2)
  let s2 := Real.sin (e.y / 2)
  let s3 := Real.sin (e.z / 2)
  ⟨s1 * c2 * c3 + c1 * s2 * s3,
   c1 * s2 * c3 - s1 * c2 * s3,
   c1 * c2 * s3 + s1 * s2 * c3,
   c1 * c2 * c3 - s1 * s2 * s3⟩

/-- THREE.Euler.setFromQuaternion (order XYZ): builds the rotation matrix
entries of the quaternion and extracts the angles, with the near-gimbal
branch taken when the absolute value of m13 reaches 0.9999999. -/
def eulerSetFromQuaternion (q : Quat) : Euler :=
  let m11 := 1 - 2 * (q.y ^ 2 + q.z ^ 2)
  let m12 := 2 * (q.x * q.y - q.w * q.z)
  let m13 := 2 * (q.x * q.z + q.w * q.y)
  let m22 := 1 - 2 * (q.x ^ 2 + q.z ^ 2)
  let m23 := 2 * (q.y * q.z - q.w * q.x)
  let m32 := 2 * (q.y * q.z + q.w * q.x)
  let m33 := 1 - 2 * (q.x ^ 2 + q.y ^ 2)
  let ey := Real.arcsin (clampReal m13 (-1) 1)
  if |m13| < 0.9999999 then
    ⟨atan2 (-m23) m33, ey, atan2 (-m12) m11⟩
  else
    ⟨atan2 m32 m22, ey, 0⟩

/-- THREE.Quaternion.normalize: divide by the length, or produce the
identity quaternion when the length is zero. -/
def quatNormalize (q : Quat) : Quat :=
  let l := Real.sqrt (q.x ^ 2 + q.y ^ 2 + q.z ^ 2 + q.w ^ 2)
  if l = 0 then ⟨0, 0, 0, 1⟩
  else ⟨q.x / l, q.y / l, q.z / l, q.w / l⟩

/-- THREE.Quaternion.slerpQuaternions qa qb t = copy(qa).slerp(qb, t),
embedded from the slerp source: exact shortcuts at t = 0 and t = 1, sign
flip of qb against the dot product, a shortcut when the dot product
reaches 1, a normalized linear blend when the squared sine is at most
Number.EPSILON = 2^(-52), and the trigonometric spherical blend otherwise. -/
def slerpQuaternions (qa qb : Quat) (t : ℝ) : Quat :=
  if t = 0 then qa
  else if t = 1 then qb
  else
    let cosHalfTheta0 := qa.w * qb.w + qa.x * qb.x + qa.y * qb.y + qa.z * qb.z
    let qbs : Quat := if cosHalfTheta0 < 0 then ⟨-qb.x, -qb.y, -qb.z, -qb.w⟩ else qb
    let cosHalfTheta := if cosHalfTheta0 < 0 then -cosHalfTheta0 else cosHalfTheta0
    if 1 ≤ cosHalfTheta then qa
    else
      let sqrSinHalfTheta := 1 - cosHalfTheta ^ 2
      if sqrSinHalfTheta ≤ (2 : ℝ) ^ (-52 : ℤ) then
        quatNormalize ⟨(1 - t) * qa.x + t * qbs.x, (1 - t) * qa.y + t * qbs.y,
                       (1 - t) * qa.z + t * qbs.z, (1 - t) * qa.w + t * qbs.w⟩
      else
        let sinHalfTheta := Real.sqrt sqrSinHalfTheta
        let halfTheta := atan2 sinHalfTheta cosHalfTheta
        let ratioA := Real.sin ((1 - t) * halfTheta) / sinHalfTheta
        let ratioB := Real.sin (t * halfTheta) / sinHalfTheta
        ⟨qa.x * ratioA + qbs.x * ratioB, qa.y * ratioA + qbs.y * ratioB,
         qa.z * ratioA + qbs.z * ratioB, qa.w * ratioA + qbs.w * ratioB⟩

/-- Position, rotation and scale of a scene node (the live transform of a
component group, or one of the stored transform records). -/
@[ext] structure Transform3 where
  position : Vec3
  rotation : Euler
  scale : Vec3

/-- One animatable component: the live transform of its group node plus the
entries the side tables (originalPositions, ..., scatteredScales) hold for
it.  A missing map entry is represented by none. -/
@[ext] structure Component where
  live : Transform3
  originalPosition : Option Vec3
  originalRotation : Option Euler
  originalScale : Option Vec3
  scatteredPosition : Option Vec3
  scatteredRotation : Option Euler
  scatteredScale : Option Vec3

/-- Per-component local progress of updateAssemblyProgress: slotStart = i/n,
slotEnd = (i+1)/n; the result is 1 at or after slotEnd, the linear ramp
inside the slot, and 0 before slotStart. -/
def componentLocalProgress (progress : ℝ) (index total : ℕ) : ℝ :=
  let slotStart := (index : ℝ) / (total : ℝ)
  let slotEnd := ((index : ℝ) + 1) / (total : ℝ)
  if slotEnd ≤ progress then 1
  else if slotStart ≤ progress then (progress - slotStart) / (slotEnd - slotStart)
  else 0

/-- The easing of updateAssemblyProgress: exactly 0 at 0 and 1 at 1 by the
two ternary branches, and 1 - 2^(-10 p) otherwise. -/
def easeOutExpo (p : ℝ) : ℝ :=
  if p = 0 then 0
  else if p = 1 then 1
  else 1 - (2 : ℝ) ^ (-10 * p)

/-- Body of the forEach inside updateAssemblyProgress for the component at
the given index: recompute the live transform from the stored records (with
the || fallbacks of the source for missing entries) and the eased local
progress.  The stored records themselves are untouched. -/
def updateComponent (progress : ℝ) (total index : ℕ) (c : Component) : Component :=
  let p := componentLocalProgress progress index total
  let eased := easeOutExpo p
  let startPos := c.scatteredPosition.getD ⟨0, 0, 0⟩
  let targetPos := c.originalPosition.getD ⟨0, 0, 0⟩
  let startRot := c.scatteredRotation.getD ⟨0, 0, 0⟩
  let targetRot := c.originalRotation.getD ⟨0, 0, 0⟩
  let startScale := c.scatteredScale.getD ⟨0.01, 0.01, 0.01⟩
  let targetScale := c.originalScale.getD ⟨1, 1, 1⟩
  let startQuat := quatSetFromEuler startRot
  let endQuat := quatSetFromEuler targetRot
  let currentQuat := slerpQuaternions startQuat endQuat eased
  { c with live := ⟨lerpVectors startPos targetPos eased,
                    eulerSetFromQuaternion currentQuat,
                    lerpVectors startScale targetScale eased⟩ }

/-- The forEach of updateAssemblyProgress, walking the component list with
its running index. -/
def updateLoop (progress : ℝ) (total : ℕ) : ℕ → List Component → List Component
  | _, [] => []
  | i, c :: rest => updateComponent progress total i c :: updateLoop progress total (i + 1) rest

/-- updateAssemblyProgress scrollProgress: totalSlots is the length of the
component list, and every component is rewritten in place. -/
def updateAssemblyProgress (progress : ℝ) (cs : List Component) : List Component :=
  updateLoop progress cs.length 0 cs

/-- Non-empty axis-aligned box given by its min and max corners. -/
@[ext] structure AABB where
  minV : Vec3
  maxV : Vec3

/-- THREE.Box3 with the empty box (min at plus infinity, max at minus
infinity) represented by none. -/
abbrev Box3 := Option AABB

/-- Componentwise minimum of two vectors. -/
def vmin (a b : Vec3) : Vec3 := ⟨min a.x b.x, min a.y b.y, min a.z b.z⟩

/-- Componentwise maximum of two vectors. -/
def vmax (a b : Vec3) : Vec3 := ⟨max a.x b.x, max a.y b.y, max a.z b.z⟩

/-- Componentwise sum of two vectors. -/
def vadd (a b : Vec3) : Vec3 := ⟨a.x + b.x, a.y + b.y, a.z + b.z⟩

/-- Componentwise negation of a vector. -/
def vneg (a : Vec3) : Vec3 := ⟨-a.x, -a.y, -a.z⟩

/-- THREE.Box3.union: componentwise min of mins and max of maxes; the empty
box is the neutral element. -/
def boxUnion (a b : Box3) : Box3 :=
  match a, b with
  | none, b => b
  | some u, none => some u
  | some u, some v => some ⟨vmin u.minV v.minV, vmax u.maxV v.maxV⟩

/-- THREE.Box3.isEmpty. -/
def boxIsEmpty (b : Box3) : Bool := b.isNone

/-- THREE.Box3.getCenter: the midpoint of min and max, or the origin for the
empty box. -/
def boxGetCenter : Box3 → Vec3
  | none => ⟨0, 0, 0⟩
  | some u => ⟨(u.minV.x + u.maxV.x) / 2, (u.minV.y + u.maxV.y) / 2, (u.minV.z + u.maxV.z) / 2⟩

/-- THREE.Box3.getSize: max minus min, or zero for the empty box. -/
def boxGetSize : Box3 → Vec3
  | none => ⟨0, 0, 0⟩
  | some u => ⟨u.maxV.x - u.minV.x, u.maxV.y - u.minV.y, u.maxV.z - u.minV.z⟩

/-- THREE.Box3.translate by an offset (the empty box stays empty). -/
def boxTranslate (b : Box3) (off : Vec3) : Box3 :=
  b.map (fun u => ⟨vadd u.minV off, vadd u.maxV off⟩)

/-- Distance from the min corner of a box to its max corner, the size metric
componentBox.min.distanceTo(componentBox.max) of processModel. -/
def aabbDiag (u : AABB) : ℝ :=
  Real.sqrt ((u.maxV.x - u.minV.x) ^ 2 + (u.maxV.y - u.minV.y) ^ 2 + (u.maxV.z - u.minV.z) ^ 2)

/-- One candidate mesh found by the traversal of processModel, abstracted to
its world-space bounding box (geometry bounding box carried through the
world matrix) and its decomposed world transform. -/
structure Mesh where
  box : AABB
  worldPos : Vec3
  worldQuat : Quat
  worldScale : Vec3

/-- The candidate set of processModel: the traversal admits meshes until the
MAX_COMPONENTS = 500 cap is reached. -/
def candidates (meshes : List Mesh) : List Mesh := meshes.take 500

/-- The first pass of processModel: union bounding volume of the boxes of
all candidates. -/
def candidateBounds (cands : List Mesh) : Box3 :=
  cands.foldl (fun b m => boxUnion b (some m.box)) none

/-- Largest dimension of a box size vector, Math.max(size.x, size.y, size.z). -/
def maxDim3 (size : Vec3) : ℝ := max size.x (max size.y size.z)

/-- minComponentSize = maxDimension * 0.02 of processModel, computed from
the candidate union bounds. -/
def minComponentSize (cands : List Mesh) : ℝ :=
  maxDim3 (boxGetSize (candidateBounds cands)) * 0.02

/-- The size filter of processModel: a candidate is skipped exactly when its
diagonal length is strictly below the threshold. -/
def sizeFilter (minSize : ℝ) (cands : List Mesh) : List Mesh :=
  cands.filter (fun m => !decide (aabbDiag m.box < minSize))

/-- Component construction of processModel for one surviving candidate: the
group takes the world transform of the node with the model center
subtracted from the position and the world quaternion converted to Euler
angles; the same values are stored as the original transform records, and
the scattered side tables hold no entry for the fresh group. -/
def buildComponent (center : Vec3) (m : Mesh) : Component :=
  let pos : Vec3 := ⟨m.worldPos.x - center.x, m.worldPos.y - center.y, m.worldPos.z - center.z⟩
  let rot := eulerSetFromQuaternion m.worldQuat
  ⟨⟨pos, rot, m.worldScale⟩, some pos, some rot, some m.worldScale, none, none, none⟩

/-- The size sort of processModel: stable sort of the built components by
descending diagonal length of their bounding boxes (the diagonal of a
component equals the diagonal of the candidate box it was built from, the
group being a translated copy of the candidate geometry). -/
def sortComponents (pairs : List (ℝ × Component)) : List Component :=
  (pairs.mergeSort (fun a b => decide (b.1 ≤ a.1))).map Prod.snd

/-- Orthographic camera state: frustum planes, zoom and position. -/
@[ext] structure Camera where
  left : ℝ
  right : ℝ
  top : ℝ
  bottom : ℝ
  zoom : ℝ
  posn : Vec3

/-- The state of the AssemblyAnimation object touched by the core: camera,
controls target, component list, model bounds and the animation driver
fields. -/
structure AppState where
  camera : Camera
  controlsTarget : Vec3
  components : List Component
  modelBounds : Box3
  isAnimating : Bool
  startTime : ℝ
  animationDuration : ℝ

/-- frameModel: no-op on empty bounds; otherwise centers the controls
target, places the camera at the isometric offset of magnitude
2 * maxDim, sets the frustum from frustumSize = (maxDim * 1.5) / 2 with the
container aspect ratio, and resets zoom to 1. -/
def frameModel (aspect : ℝ) (st : AppState) : AppState :=
  if boxIsEmpty st.modelBounds then st
  else
    let center := boxGetCenter st.modelBounds
    let size := boxGetSize st.modelBounds
    let maxDim := maxDim3 size
    let distance := maxDim * 2
    let frustumSize := maxDim * 1.5 / 2
    { st with
      controlsTarget := center,
      camera := { st.camera with
        posn := ⟨center.x - distance, center.y + distance, center.z + distance⟩,
        left := -(frustumSize * aspect) / 2,
        right := frustumSize * aspect / 2,
        top := frustumSize / 2,
        bottom := -(frustumSize / 2),
        zoom := 1 } }

/-- Scatter pattern names. -/
inductive Pattern
  | spiral
  | sphere
  | explosion

/-- THREE.Vector3.normalize: divideScalar(length or 1 when the length is
zero). -/
def vecNormalize (v : Vec3) : Vec3 :=
  let l := Real.sqrt (v.x ^ 2 + v.y ^ 2 + v.z ^ 2)
  let d := if l = 0 then 1 else l
  ⟨v.x / d, v.y / d, v.z / d⟩

/-- The forEach of scatterComponents for the components after the first one
(index starts at 1): computes the pattern position, consuming the random
stream in call order where the pattern uses Math.random, then three random
rotation angles in [0, 2 pi) and the fixed 0.01 scale, writes the result
into the live transform and records it in the scattered side tables. -/
def scatterRest (pattern : Pattern) (rand : ℕ → ℝ) (scatterRadius : ℝ) (total : ℕ) :
    ℕ → ℕ → List Component → List Component
  | _, _, [] => []
  | ctr, index, c :: rest =>
    let t : ℝ := (index : ℝ) / (total : ℝ)
    let posCtr : Vec3 × ℕ :=
      match pattern with
      | .spiral =>
        let angle := t * π * 4
        let radius := scatterRadius * (0.3 + t * 0.7)
        (⟨Real.cos angle * radius, (t - 0.5) * scatterRadius * 1.5, Real.sin angle * radius⟩, ctr)
      | .sphere =>
        let phi := Real.arccos (2 * t - 1)
        let theta := π * 2 * (index : ℝ) * 0.618
        (⟨scatterRadius * Real.sin phi * Real.cos theta,
          scatterRadius * Real.sin phi * Real.sin theta,
          scatterRadius * Real.cos phi⟩, ctr)
      | .explosion =>
        let dir := vecNormalize ⟨rand ctr - 0.5, rand (ctr + 1) - 0.5, rand (ctr + 2) - 0.5⟩
        let dist := scatterRadius * (0.5 + rand (ctr + 3) * 0.5)
        (⟨dir.x * dist, dir.y * dist, dir.z * dist⟩, ctr + 4)
    let ctr2 := posCtr.2
    let scatterRot : Euler := ⟨rand ctr2 * π * 2, rand (ctr2 + 1) * π * 2, rand (ctr2 + 2) * π * 2⟩
    let scatterScale : Vec3 := ⟨0.01, 0.01, 0.01⟩
    { c with live := ⟨posCtr.1, scatterRot, scatterScale⟩,
             scatteredPosition := some posCtr.1,
             scatteredRotation := some scatterRot,
             scatteredScale := some scatterScale } ::
      scatterRest pattern rand scatterRadius total (ctr2 + 3) (index + 1) rest

/-- scatterComponents: scatterRadius = maxDim * 10 from the model bounds;
the component at index 0 keeps its original records as its scattered
records and its live transform untouched (the source reads the original
side tables directly there, so a missing record would throw: that case is
the none result); every later component is scattered by the pattern. -/
def scatterComponents (pattern : Pattern) (rand : ℕ → ℝ) (bounds : Box3)
    (cs : List Component) : Option (List Component) :=
  let size := boxGetSize bounds
  let maxDim := maxDim3 size
  let scatterRadius := maxDim * 10
  match cs with
  | [] => some []
  | c0 :: rest =>
    match c0.originalPosition, c0.originalRotation, c0.originalScale with
    | some p, some r, some s =>
      some ({ c0 with scatteredPosition := some p, scatteredRotation := some r,
                      scatteredScale := some s } ::
            scatterRest pattern rand scatterRadius (c0 :: rest).length 0 1 rest)
    | _, _, _ => none

/-- startAnimation: sets isAnimating, records the start time and the fixed
4000 ms duration. -/
def startAnimation (now : ℝ) (st : AppState) : AppState :=
  { st with isAnimating := true, startTime := now, animationDuration := 4000 }

/-- processModel: collect up to 500 candidate meshes, compute the union
bounds, center and size threshold, discard small candidates, build the
component groups with centroid-relative original transforms, recenter the
bounds, sort by descending size, frame the camera, scatter with the spiral
pattern and start the animation driver.  The none result is the throw of
the index 0 scatter lookup, unreachable for components built here. -/
def processModel (meshes : List Mesh) (aspect now : ℝ) (rand : ℕ → ℝ)
    (st : AppState) : Option AppState :=
  let cands := candidates meshes
  let bounds := candidateBounds cands
  let center := boxGetCenter bounds
  let minSize := minComponentSize cands
  let survivors := sizeFilter minSize cands
  let pairs := survivors.map (fun m => (aabbDiag m.box, buildComponent center m))
  let sorted := sortComponents pairs
  let boundsCentered := boxTranslate bounds (vneg center)
  let st1 := { st with components := sorted, modelBounds := boundsCentered }
  let st2 := frameModel aspect st1
  (scatterComponents .spiral rand st2.modelBounds st2.components).map fun scattered =>
    startAnimation now { st2 with components := scattered }

/-! Concrete instances used as counterexample and witness inputs. -/

/-- A component whose six stored records are all present and trivial. -/
def trivialComponent : Component :=
  ⟨⟨⟨0, 0, 0⟩, ⟨0, 0, 0⟩, ⟨1, 1, 1⟩⟩,
   some ⟨0, 0, 0⟩, some ⟨0, 0, 0⟩, some ⟨1, 1, 1⟩,
   some ⟨0, 0, 0⟩, some ⟨0, 0, 0⟩, some ⟨0.01, 0.01, 0.01⟩⟩

/-- A component whose stored scattered rotation has its x angle at 3 pi / 2,
inside the [0, 2 pi) range the scatter generator draws from. -/
def cexComponentC1 : Component :=
  ⟨⟨⟨0, 0, 0⟩, ⟨0, 0, 0⟩, ⟨1, 1, 1⟩⟩,
   some ⟨0, 0, 0⟩, some ⟨0, 0, 0⟩, some ⟨1, 1, 1⟩,
   some ⟨0, 0, 0⟩, some ⟨3 * π / 2, 0, 0⟩, some ⟨0.01, 0.01, 0.01⟩⟩

/-- A second component with the 3 pi / 2 scattered rotation angle, used for
the out-of-range progress counterexample. -/
def cexComponentC10 : Component :=
  ⟨⟨⟨0, 0, 0⟩, ⟨0, 0, 0⟩, ⟨1, 1, 1⟩⟩,
   some ⟨0, 0, 0⟩, some ⟨0, 0, 0⟩, some ⟨1, 1, 1⟩,
   some ⟨0, 0, 0⟩, some ⟨3 * π / 2, 0, 0⟩, some ⟨0.01, 0.01, 0.01⟩⟩

/-- A component with every stored record missing. -/
def cexComponentC9 : Component :=
  ⟨⟨⟨0, 0, 0⟩, ⟨0, 0, 0⟩, ⟨1, 1, 1⟩⟩, none, none, none, none, none, none⟩

/-- A component with nontrivial original records and no scattered records,
as processModel builds them. -/
def witnessComponentC5 : Component :=
  ⟨⟨⟨1, 2, 3⟩, ⟨0, 0, 0⟩, ⟨1, 1, 1⟩⟩,
   some ⟨1, 2, 3⟩, some ⟨0, 0, 0⟩, some ⟨1, 1, 1⟩, none, none, none⟩

/-- An initial application state as the constructor leaves it before any
model is processed. -/
def cexInitState : AppState :=
  ⟨⟨-20, 20, 20, -20, 1, ⟨100, 100, 100⟩⟩, ⟨0, 0, 0⟩, [], none, false, 0, 0⟩

/-- An application state whose model bounds have largest dimension 4. -/
def cexStateC8 : AppState :=
  ⟨⟨-20, 20, 20, -20, 1, ⟨100, 100, 100⟩⟩, ⟨0, 0, 0⟩, [],
   some ⟨⟨0, 0, 0⟩, ⟨4, 0, 0⟩⟩, false, 0, 0⟩

/-- A mesh whose world box has diagonal 100, fixing the model dimension. -/
def meshBig : Mesh := ⟨⟨⟨0, 0, 0⟩, ⟨100, 0, 0⟩⟩, ⟨0, 0, 0⟩, ⟨0, 0, 0, 1⟩, ⟨1, 1, 1⟩⟩

/-- A mesh whose world box diagonal is exactly 2, the 2 percent threshold of
a model of dimension 100. -/
def meshSmall : Mesh := ⟨⟨⟨0, 0, 0⟩, ⟨2, 0, 0⟩⟩, ⟨0, 0, 0⟩, ⟨0, 0, 0, 1⟩, ⟨1, 1, 1⟩⟩

end

/-! Helper lemmas about the embedded operations. -/

theorem lerpVectors_zero (a b : Vec3) : lerpVectors a b 0 = a := by
  unfold lerpVectors; ext <;> dsimp <;> ring

theorem lerpVectors_one (a b : Vec3) : lerpVectors a b 1 = b := by
  unfold lerpVectors; ext <;> dsimp <;> ring

theorem easeOutExpo_zero : easeOutExpo 0 = 0 := by simp [easeOutExpo]

theorem easeOutExpo_one : easeOutExpo 1 = 1 := by simp [easeOutExpo]

theorem easeOutExpo_of_ne {p : ℝ} (h0 : p ≠ 0) (h1 : p ≠ 1) :
    easeOutExpo p = 1 - (2 : ℝ) ^ (-10 * p) := by
  simp [easeOutExpo, h0, h1]

theorem slerpQuaternions_zero (qa qb : Quat) : slerpQuaternions qa qb 0 = qa := by
  simp [slerpQuaternions]

theorem slerpQuaternions_one (qa qb : Quat) : slerpQuaternions qa qb 1 = qb := by
  simp [slerpQuaternions]

theorem componentLocalProgress_of_lt_start {p : ℝ} {i n : ℕ} (hn : 0 < n)
    (hp : p < (i : ℝ) / n) : componentLocalProgress p i n = 0 := by
  have hn' : (0 : ℝ) < n := by exact_mod_cast hn
  have h1 : (i : ℝ) / n ≤ ((i : ℝ) + 1) / n :=
    (div_le_div_iff_of_pos_right hn').mpr (by linarith)
  simp only [componentLocalProgress]
  rw [if_neg (not_le.mpr (lt_of_lt_of_le hp h1)), if_neg (not_le.mpr hp)]

theorem componentLocalProgress_of_ge_end {p : ℝ} {i n : ℕ}
    (hp : ((i : ℝ) + 1) / n ≤ p) : componentLocalProgress p i n = 1 := by
  simp only [componentLocalProgress]
  rw [if_pos hp]

theorem componentLocalProgress_in_slot {p : ℝ} {i n : ℕ}
    (h1 : (i : ℝ) / n ≤ p) (h2 : p < ((i : ℝ) + 1) / n) :
    componentLocalProgress p i n = (p - (i : ℝ) / n) / (((i : ℝ) + 1) / n - (i : ℝ) / n) := by
  simp only [componentLocalProgress]
  rw [if_neg (not_le.mpr h2), if_pos h1]

theorem componentLocalProgress_at_zero {i n : ℕ} (hn : 0 < n) :
    componentLocalProgress 0 i n = 0 := by
  have hn' : (0 : ℝ) < n := by exact_mod_cast hn
  cases i with
  | zero =>
    rw [componentLocalProgress_in_slot (by simp) (by positivity)]
    simp
  | succ j =>
    exact componentLocalProgress_of_lt_start hn (by positivity)

theorem componentLocalProgress_at_one {i n : ℕ} (hi : i < n) :
    componentLocalProgress 1 i n = 1 := by
  have hn' : (0 : ℝ) < n := by exact_mod_cast lt_of_le_of_lt (Nat.zero_le i) hi
  refine componentLocalProgress_of_ge_end ((div_le_one hn').mpr ?_)
  exact_mod_cast Nat.succ_le_of_lt hi

theorem componentLocalProgress_of_neg {p : ℝ} {i n : ℕ} (hn : 0 < n) (hp : p < 0) :
    componentLocalProgress p i n = 0 :=
  componentLocalProgress_of_lt_start hn (lt_of_lt_of_le hp (by positivity))

theorem componentLocalProgress_of_ge_one {p : ℝ} {i n : ℕ} (hi : i < n) (hp : 1 ≤ p) :
    componentLocalProgress p i n = 1 := by
  have hn' : (0 : ℝ) < n := by exact_mod_cast lt_of_le_of_lt (Nat.zero_le i) hi
  refine componentLocalProgress_of_ge_end (le_trans ((div_le_one hn').mpr ?_) hp)
  exact_mod_cast Nat.succ_le_of_lt hi

theorem componentLocalProgress_strict_mono {p q : ℝ} {i n : ℕ} (hn : 0 < n)
    (h1 : (i : ℝ) / n ≤ p) (hpq : p < q) (h2 : q < ((i : ℝ) + 1) / n) :
    componentLocalProgress p i n < componentLocalProgress q i n := by
  have hn' : (0 : ℝ) < n := by exact_mod_cast hn
  have hd : (0 : ℝ) < ((i : ℝ) + 1) / n - (i : ℝ) / n := by
    rw [div_sub_div_same]
    simp [hn']
  rw [componentLocalProgress_in_slot h1 (lt_trans hpq h2),
    componentLocalProgress_in_slot (le_trans h1 (le_of_lt hpq)) h2]
  exact (div_lt_div_iff_of_pos_right hd).mpr (by linarith)

theorem updateLoop_length (p : ℝ) (total k : ℕ) (cs : List Component) :
    (updateLoop p total k cs).length = cs.length := by
  induction cs generalizing k with
  | nil => rfl
  | cons c rest ih => simp [updateLoop, ih]

theorem updateLoop_getElem? (p : ℝ) (total k i : ℕ) (cs : List Component) :
    (updateLoop p total k cs)[i]? = (cs[i]?).map (updateComponent p total (k + i)) := by
  induction cs generalizing k i with
  | nil => simp [updateLoop]
  | cons c rest ih =>
    cases i with
    | zero => simp [updateLoop]
    | succ j =>
      simp only [updateLoop, List.getElem?_cons_succ, ih]
      rw [Nat.succ_add, Nat.add_succ]

theorem updateAssemblyProgress_getElem? (p : ℝ) (i : ℕ) (cs : List Component) :
    (updateAssemblyProgress p cs)[i]? = (cs[i]?).map (updateComponent p cs.length i) := by
  simpa [updateAssemblyProgress] using updateLoop_getElem? p cs.length 0 i cs

theorem updateAssemblyProgress_length (p : ℝ) (cs : List Component) :
    (updateAssemblyProgress p cs).length = cs.length :=
  updateLoop_length p cs.length 0 cs

theorem updateComponent_updateComponent (p q : ℝ) (total index total2 index2 : ℕ)
    (c : Component) :
    updateComponent p total index (updateComponent q total2 index2 c) =
      updateComponent p total index c := by
  cases c; rfl

theorem updateLoop_updateLoop (p q : ℝ) (total k total2 k2 : ℕ) (cs : List Component) :
    updateLoop p total k (updateLoop q total2 k2 cs) = updateLoop p total k cs := by
  induction cs generalizing k k2 with
  | nil => rfl
  | cons c rest ih =>
    simp only [updateLoop, updateComponent_updateComponent, ih]

theorem updateAssemblyProgress_updateAssemblyProgress (p q : ℝ) (cs : List Component) :
    updateAssemblyProgress p (updateAssemblyProgress q cs) = updateAssemblyProgress p cs := by
  unfold updateAssemblyProgress
  rw [updateLoop_length]
  exact updateLoop_updateLoop p q cs.length 0 cs.length 0 cs

theorem updateLoop_congr (p q : ℝ) (total : ℕ) (cs : List Component) (k : ℕ)
    (h : ∀ i, k ≤ i → i < k + cs.length →
      componentLocalProgress p i total = componentLocalProgress q i total) :
    updateLoop p total k cs = updateLoop q total k cs := by
  induction cs generalizing k with
  | nil => rfl
  | cons c rest ih =>
    simp only [updateLoop]
    congr 1
    · unfold updateComponent
      rw [h k le_rfl (by simp)]
    · exact ih (k + 1) fun i h1 h2 => h i (by omega) (by simp only [List.length_cons]; omega)

theorem atan2_neg_one_zero : atan2 (-1) 0 = -(π / 2) := by
  unfold atan2
  norm_num

theorem atan2_zero_one : atan2 0 1 = 0 := by
  unfold atan2
  norm_num [Real.arctan_zero]

theorem sqrt_two_div_two_sq : (Real.sqrt 2 / 2) ^ 2 = 1 / 2 := by
  rw [div_pow, Real.sq_sqrt (by norm_num : (0 : ℝ) ≤ 2)]
  norm_num

theorem quatSetFromEuler_threePiHalf :
    quatSetFromEuler ⟨3 * π / 2, 0, 0⟩ = ⟨Real.sqrt 2 / 2, 0, 0, -(Real.sqrt 2 / 2)⟩ := by
  have h : 3 * π / 2 / 2 = π - π / 4 := by ring
  unfold quatSetFromEuler
  ext <;>
    simp [h, Real.sin_pi_sub, Real.cos_pi_sub, Real.sin_pi_div_four, Real.cos_pi_div_four]

theorem eulerSetFromQuaternion_sflip (s : ℝ) (hs : s ^ 2 = 1 / 2) :
    eulerSetFromQuaternion ⟨s, 0, 0, -s⟩ = ⟨-(π / 2), 0, 0⟩ := by
  have e13 : 2 * ((s : ℝ) * 0 + -s * 0) = 0 := by ring
  have e23 : 2 * ((0 : ℝ) * 0 - -s * s) = 1 := by
    have h : 2 * ((0 : ℝ) * 0 - -s * s) = 2 * s ^ 2 := by ring
    rw [h, hs]; norm_num
  have e33 : 1 - 2 * ((s : ℝ) ^ 2 + 0 ^ 2) = 0 := by
    have h : 1 - 2 * ((s : ℝ) ^ 2 + 0 ^ 2) = 1 - 2 * s ^ 2 := by ring
    rw [h, hs]; norm_num
  have e12 : 2 * ((s : ℝ) * 0 - -s * 0) = 0 := by ring
  have e11 : 1 - 2 * ((0 : ℝ) ^ 2 + 0 ^ 2) = 1 := by norm_num
  have hc : clampReal (0 : ℝ) (-1) 1 = 0 := by
    unfold clampReal; norm_num
  unfold eulerSetFromQuaternion
  dsimp only
  rw [e13, e23, e33, e12, e11]
  rw [if_pos (by norm_num : |(0 : ℝ)| < 0.9999999)]
  rw [hc, Real.arcsin_zero]
  rw [show -(1 : ℝ) = (-1 : ℝ) by norm_num, atan2_neg_one_zero,
    show -(0 : ℝ) = (0 : ℝ) by norm_num, atan2_zero_one]

theorem updateComponent_live_of_localZero (p : ℝ) (n i : ℕ)
    (h : componentLocalProgress p i n = 0) (c : Component) (sp : Vec3) (sr : Euler)
    (ss : Vec3) (h1 : c.scatteredPosition = some sp) (h2 : c.scatteredRotation = some sr)
    (h3 : c.scatteredScale = some ss) :
    (updateComponent p n i c).live = ⟨sp, eulerSetFromQuaternion (quatSetFromEuler sr), ss⟩ := by
  simp [updateComponent, h, h1, h2, h3, easeOutExpo_zero, slerpQuaternions_zero,
    lerpVectors_zero]

theorem updateComponent_live_of_localOne (p : ℝ) (n i : ℕ)
    (h : componentLocalProgress p i n = 1) (c : Component) (op : Vec3) (orot : Euler)
    (os : Vec3) (h4 : c.originalPosition = some op) (h5 : c.originalRotation = some orot)
    (h6 : c.originalScale = some os) :
    (updateComponent p n i c).live = ⟨op, eulerSetFromQuaternion (quatSetFromEuler orot), os⟩ := by
  simp [updateComponent, h, h4, h5, h6, easeOutExpo_one, slerpQuaternions_one,
    lerpVectors_one]

theorem processModel_nil (aspect now : ℝ) (rand : ℕ → ℝ) (st : AppState) :
    processModel [] aspect now rand st =
      some ⟨st.camera, st.controlsTarget, [], none, true, now, 4000⟩ := by
  unfold processModel candidates candidateBounds minComponentSize sizeFilter sortComponents
    boxGetSize boxGetCenter maxDim3 boxTranslate frameModel boxIsEmpty scatterComponents
    startAnimation
  simp

/-- C3: updateAssemblyProgress is idempotent and accumulation free.  The
live transforms it writes depend only on the progress argument, the length
of the component list and the stored records, never on the incoming live
transforms, so a repeated call with the same progress, and more generally a
call after any history of prior calls, produces exactly the same component
list as a single call on the starting list. -/
theorem updateAssemblyProgress_idempotent (p : ℝ) (history : List ℝ) (cs : List Component) :
    updateAssemblyProgress p (updateAssemblyProgress p cs) = updateAssemblyProgress p cs ∧
    updateAssemblyProgress p (history.foldl (fun acc q => updateAssemblyProgress q acc) cs) =
      updateAssemblyProgress p cs := by
  constructor
  · exact updateAssemblyProgress_updateAssemblyProgress p p cs
  · induction history generalizing cs with
    | nil => rfl
    | cons q hist ih =>
      rw [List.foldl_cons, ih, updateAssemblyProgress_updateAssemblyProgress]

/-- C2: the time-slot schedule of updateAssemblyProgress.  For the component
at index i of n the local progress is 0 below i/n, 1 at or above (i+1)/n and
the linear ramp (progress - i/n) / (1/n) inside the slot; the easing is
exactly 0 at 0, exactly 1 at 1 and 1 - 2^(-10 p) strictly inside; the live
position is the interpolation of the stored scattered and original positions
by the eased local progress; and in the four-component scenario at global
progress 0.6 the local progresses are 1, 1, 0.4 and 0, with the eased value
of 0.4 equal to 15/16. -/
theorem componentLocalProgress_schedule_spec (n i : ℕ) (hn : 0 < n) (hi : i < n)
    (pa pb pc pd : ℝ) (c : Component)
    (ha : pa < (i : ℝ) / n)
    (hb : ((i : ℝ) + 1) / n ≤ pb)
    (hc1 : (i : ℝ) / n ≤ pc) (hc2 : pc < ((i : ℝ) + 1) / n)
    (hd0 : 0 < pd) (hd1 : pd < 1) :
    componentLocalProgress pa i n = 0 ∧
    componentLocalProgress pb i n = 1 ∧
    componentLocalProgress pc i n = (pc - (i : ℝ) / n) / (1 / n) ∧
    easeOutExpo 0 = 0 ∧
    easeOutExpo 1 = 1 ∧
    easeOutExpo pd = 1 - (2 : ℝ) ^ (-10 * pd) ∧
    (updateComponent pc n i c).live.position =
      lerpVectors (c.scatteredPosition.getD ⟨0, 0, 0⟩) (c.originalPosition.getD ⟨0, 0, 0⟩)
        (easeOutExpo (componentLocalProgress pc i n)) ∧
    componentLocalProgress (3 / 5) 0 4 = 1 ∧
    componentLocalProgress (3 / 5) 1 4 = 1 ∧
    componentLocalProgress (3 / 5) 2 4 = 2 / 5 ∧
    componentLocalProgress (3 / 5) 3 4 = 0 ∧
    easeOutExpo (2 / 5) = 15 / 16 := by
  refine ⟨componentLocalProgress_of_lt_start hn ha,
    componentLocalProgress_of_ge_end hb, ?_, easeOutExpo_zero, easeOutExpo_one,
    easeOutExpo_of_ne (ne_of_gt hd0) (ne_of_lt hd1), rfl, ?_, ?_, ?_, ?_, ?_⟩
  · rw [componentLocalProgress_in_slot hc1 hc2, div_sub_div_same, add_sub_cancel_left]
  · exact componentLocalProgress_of_ge_end (by norm_num)
  · exact componentLocalProgress_of_ge_end (by norm_num)
  · rw [componentLocalProgress_in_slot (by norm_num) (by norm_num)]
    norm_num
  · exact componentLocalProgress_of_lt_start (by norm_num) (by norm_num)
  · rw [easeOutExpo_of_ne (by norm_num) (by norm_num),
      show (-10 : ℝ) * (2 / 5) = ((-4 : ℤ) : ℝ) by norm_num, Real.rpow_intCast]
    norm_num

/-- C2 witness: the schedule theorem applied at n = 4, i = 2 with global
progresses 1/10, 1, 3/5 and easing input 2/5. -/
theorem componentLocalProgress_schedule_spec_witness :
    componentLocalProgress (1 / 10) 2 4 = 0 :=
  (componentLocalProgress_schedule_spec 4 2 (by norm_num) (by norm_num)
    (1 / 10) 1 (3 / 5) (2 / 5) trivialComponent (by norm_num) (by norm_num)
    (by norm_num) (by norm_num) (by norm_num) (by norm_num)).1

/-- C4: for the component with slot [i/n, (i+1)/n) the local progress is
exactly 0 below the slot, exactly 1 at or after the slot end, and strictly
increasing inside the slot. -/
theorem componentLocalProgress_pinned_and_strictly_increasing (n i : ℕ)
    (hn : 0 < n) (hi : i < n) (p q r s : ℝ)
    (hp : p < (i : ℝ) / n)
    (hq : ((i : ℝ) + 1) / n ≤ q)
    (hr : (i : ℝ) / n ≤ r) (hrs : r < s) (hs : s < ((i : ℝ) + 1) / n) :
    componentLocalProgress p i n = 0 ∧
    componentLocalProgress q i n = 1 ∧
    componentLocalProgress r i n < componentLocalProgress s i n :=
  ⟨componentLocalProgress_of_lt_start hn hp, componentLocalProgress_of_ge_end hq,
    componentLocalProgress_strict_mono hn hr hrs hs⟩

/-- C4 witness: the pinning and monotonicity theorem applied at n = 2,
i = 1 with progresses 0, 1, 1/2 and 3/4. -/
theorem componentLocalProgress_pinned_and_strictly_increasing_witness :
    componentLocalProgress 0 1 2 = 0 :=
  (componentLocalProgress_pinned_and_strictly_increasing 2 1 (by norm_num) (by norm_num)
    0 1 (1 / 2) (3 / 4) (by norm_num) (by norm_num) (by norm_num) (by norm_num)
    (by norm_num)).1

/-- C1 (amended): at progress 0 the live position and scale of a component
with stored records are exactly the scattered values, and at progress 1
exactly the original values; the rotation however is written back through
the Euler to quaternion to Euler round trip of the stored rotation alone,
which does not reproduce the stored Euler angles in general. -/
theorem updateAssemblyProgress_boundaries_pos_scale_exact
    (cs : List Component) (i : ℕ) (c : Component) (hc : cs[i]? = some c)
    (sp : Vec3) (sr : Euler) (ss : Vec3) (op : Vec3) (orot : Euler) (os : Vec3)
    (h1 : c.scatteredPosition = some sp) (h2 : c.scatteredRotation = some sr)
    (h3 : c.scatteredScale = some ss) (h4 : c.originalPosition = some op)
    (h5 : c.originalRotation = some orot) (h6 : c.originalScale = some os) :
    ((updateAssemblyProgress 0 cs)[i]?).map Component.live =
      some ⟨sp, eulerSetFromQuaternion (quatSetFromEuler sr), ss⟩ ∧
    ((updateAssemblyProgress 1 cs)[i]?).map Component.live =
      some ⟨op, eulerSetFromQuaternion (quatSetFromEuler orot), os⟩ := by
  have hi : i < cs.length := by
    by_contra h
    rw [List.getElem?_eq_none (le_of_not_lt h)] at hc
    exact Option.noConfusion hc
  have hn : 0 < cs.length := lt_of_le_of_lt (Nat.zero_le i) hi
  constructor
  · rw [updateAssemblyProgress_getElem?, hc]
    simp only [Option.map_some']
    rw [updateComponent_live_of_localZero 0 cs.length i
      (componentLocalProgress_at_zero hn) c sp sr ss h1 h2 h3]
  · rw [updateAssemblyProgress_getElem?, hc]
    simp only [Option.map_some']
    rw [updateComponent_live_of_localOne 1 cs.length i
      (componentLocalProgress_at_one hi) c op orot os h4 h5 h6]

/-- C1 witness: the boundary theorem applied to a singleton list whose
component has all six records present. -/
theorem updateAssemblyProgress_boundaries_pos_scale_exact_witness :
    ((updateAssemblyProgress 0 [trivialComponent])[0]?).map Component.live =
      some ⟨⟨0, 0, 0⟩, eulerSetFromQuaternion (quatSetFromEuler ⟨0, 0, 0⟩),
        ⟨0.01, 0.01, 0.01⟩⟩ :=
  (updateAssemblyProgress_boundaries_pos_scale_exact [trivialComponent] 0 trivialComponent
    rfl ⟨0, 0, 0⟩ ⟨0, 0, 0⟩ ⟨0.01, 0.01, 0.01⟩ ⟨0, 0, 0⟩ ⟨0, 0, 0⟩ ⟨1, 1, 1⟩
    rfl rfl rfl rfl rfl rfl).1

/-- C1 counterexample: a stored scattered rotation with x angle 3 pi / 2
(inside the [0, 2 pi) range the scatter generator uses) comes back from the
quaternion round trip at progress 0 as (-pi/2, 0, 0), so the live rotation
is not exactly the stored scattered rotation. -/
theorem updateAssemblyProgress_boundary_rotation_not_exact :
    cexComponentC1.scatteredRotation = some ⟨3 * π / 2, 0, 0⟩ ∧
    ((updateAssemblyProgress 0 [cexComponentC1])[0]?).map (fun d => d.live.rotation) =
      some ⟨-(π / 2), 0, 0⟩ ∧
    (⟨-(π / 2), 0, 0⟩ : Euler) ≠ ⟨3 * π / 2, 0, 0⟩ := by
  refine ⟨rfl, ?_, ?_⟩
  · have h0 : (([cexComponentC1] : List Component))[0]? = some cexComponentC1 := rfl
    rw [updateAssemblyProgress_getElem?, h0]
    simp only [Option.map_some']
    rw [updateComponent_live_of_localZero 0 ([cexComponentC1] : List Component).length 0
      (componentLocalProgress_at_zero (by norm_num)) cexComponentC1
      ⟨0, 0, 0⟩ ⟨3 * π / 2, 0, 0⟩ ⟨0.01, 0.01, 0.01⟩ rfl rfl rfl]
    dsimp only
    rw [quatSetFromEuler_threePiHalf,
      eulerSetFromQuaternion_sflip (Real.sqrt 2 / 2) sqrt_two_div_two_sq]
  · intro h
    have hx : -(π / 2) = 3 * π / 2 := congrArg Euler.x h
    have hpi := Real.pi_pos
    linarith

/-- C10 (amended): progress values outside [0, 1] are clamped: every local
progress is 0 for negative progress and 1 for progress at or above 1, and
the whole update coincides with the update at progress 0, respectively 1
(so the live position and scale are the scattered, respectively original,
values, while the rotation is the quaternion round trip of the stored
rotation as in the boundary theorem). -/
theorem updateAssemblyProgress_clamps_out_of_range (p q : ℝ) (hp : p < 0) (hq : 1 ≤ q)
    (cs : List Component) (i : ℕ) (hi : i < cs.length) :
    componentLocalProgress p i cs.length = 0 ∧
    componentLocalProgress q i cs.length = 1 ∧
    updateAssemblyProgress p cs = updateAssemblyProgress 0 cs ∧
    updateAssemblyProgress q cs = updateAssemblyProgress 1 cs := by
  have hn : 0 < cs.length := lt_of_le_of_lt (Nat.zero_le i) hi
  refine ⟨componentLocalProgress_of_neg hn hp, componentLocalProgress_of_ge_one hi hq,
    ?_, ?_⟩
  · exact updateLoop_congr p 0 cs.length cs 0 fun j h1 h2 => by
      rw [componentLocalProgress_of_neg hn hp, componentLocalProgress_at_zero hn]
  · exact updateLoop_congr q 1 cs.length cs 0 fun j h1 h2 => by
      have hj : j < cs.length := by simpa using h2
      rw [componentLocalProgress_of_ge_one hj hq, componentLocalProgress_at_one hj]

/-- C10 witness: the clamping theorem applied to a singleton list at
progresses -1 and 2. -/
theorem updateAssemblyProgress_clamps_out_of_range_witness :
    componentLocalProgress (-1) 0 1 = 0 :=
  (updateAssemblyProgress_clamps_out_of_range (-1) 2 (by norm_num) (by norm_num)
    [trivialComponent] 0 (by norm_num)).1

/-- C10 counterexample: at progress -1 the component with stored scattered
rotation (3 pi / 2, 0, 0) gets live rotation (-pi/2, 0, 0) from the
quaternion round trip, so its live transform is not set to its scattered
pose record exactly. -/
theorem updateAssemblyProgress_out_of_range_rotation_cex :
    cexComponentC10.scatteredRotation = some ⟨3 * π / 2, 0, 0⟩ ∧
    ((updateAssemblyProgress (-1) [cexComponentC10])[0]?).map (fun d => d.live.rotation) =
      some ⟨-(π / 2), 0, 0⟩ ∧
    (⟨-(π / 2), 0, 0⟩ : Euler) ≠ ⟨3 * π / 2, 0, 0⟩ := by
  refine ⟨rfl, ?_, ?_⟩
  · have h0 : (([cexComponentC10] : List Component))[0]? = some cexComponentC10 := rfl
    rw [updateAssemblyProgress_getElem?, h0]
    simp only [Option.map_some']
    rw [updateComponent_live_of_localZero (-1) ([cexComponentC10] : List Component).length 0
      (componentLocalProgress_of_neg (by norm_num) (by norm_num)) cexComponentC10
      ⟨0, 0, 0⟩ ⟨3 * π / 2, 0, 0⟩ ⟨0.01, 0.01, 0.01⟩ rfl rfl rfl]
    dsimp only
    rw [quatSetFromEuler_threePiHalf,
      eulerSetFromQuaternion_sflip (Real.sqrt 2 / 2) sqrt_two_div_two_sq]
  · intro h
    have hx : -(π / 2) = 3 * π / 2 := congrArg Euler.x h
    have hpi := Real.pi_pos
    linarith

/-- C9 (amended): missing stored records never fail the frame: the update
substitutes the identity position and identity rotation for missing
position and rotation records, the minified 0.01 scale for a missing
scattered scale, the unit scale for a missing original scale, and still
writes a complete live transform. -/
theorem updateAssemblyProgress_missing_records_defaults (p : ℝ) (cs : List Component)
    (i : ℕ) (c : Component) (hc : cs[i]? = some c)
    (h1 : c.scatteredPosition = none) (h2 : c.scatteredRotation = none)
    (h3 : c.scatteredScale = none) (h4 : c.originalPosition = none)
    (h5 : c.originalRotation = none) (h6 : c.originalScale = none) :
    ((updateAssemblyProgress p cs)[i]?).map Component.live =
      some ⟨lerpVectors ⟨0, 0, 0⟩ ⟨0, 0, 0⟩
          (easeOutExpo (componentLocalProgress p i cs.length)),
        eulerSetFromQuaternion (slerpQuaternions (quatSetFromEuler ⟨0, 0, 0⟩)
          (quatSetFromEuler ⟨0, 0, 0⟩) (easeOutExpo (componentLocalProgress p i cs.length))),
        lerpVectors ⟨0.01, 0.01, 0.01⟩ ⟨1, 1, 1⟩
          (easeOutExpo (componentLocalProgress p i cs.length))⟩ := by
  rw [updateAssemblyProgress_getElem?, hc, Option.map_some']
  simp [updateComponent, h1, h2, h3, h4, h5, h6]

/-- C9 witness: the defaults theorem applied to a singleton list whose
component has no stored records, at progress 1/2. -/
theorem updateAssemblyProgress_missing_records_defaults_witness :
    ((updateAssemblyProgress (1 / 2) [cexComponentC9])[0]?).map Component.live =
      some ⟨lerpVectors ⟨0, 0, 0⟩ ⟨0, 0, 0⟩
          (easeOutExpo (componentLocalProgress (1 / 2) 0 1)),
        eulerSetFromQuaternion (slerpQuaternions (quatSetFromEuler ⟨0, 0, 0⟩)
          (quatSetFromEuler ⟨0, 0, 0⟩) (easeOutExpo (componentLocalProgress (1 / 2) 0 1))),
        lerpVectors ⟨0.01, 0.01, 0.01⟩ ⟨1, 1, 1⟩
          (easeOutExpo (componentLocalProgress (1 / 2) 0 1))⟩ :=
  updateAssemblyProgress_missing_records_defaults (1 / 2) [cexComponentC9] 0
    cexComponentC9 rfl rfl rfl rfl rfl rfl rfl

/-- C9 counterexample: with every record missing, progress 1 drives the
live scale to the substituted original default (1, 1, 1), not to the
configured minified scale (0.01, 0.01, 0.01): the substitute for a missing
original record is the unit scale. -/
theorem missing_original_scale_unit_not_minified :
    cexComponentC9.originalScale = none ∧
    ((updateAssemblyProgress 1 [cexComponentC9])[0]?).map (fun d => d.live.scale) =
      some ⟨1, 1, 1⟩ ∧
    (⟨1, 1, 1⟩ : Vec3) ≠ ⟨0.01, 0.01, 0.01⟩ := by
  refine ⟨rfl, ?_, ?_⟩
  · have h0 : (([cexComponentC9] : List Component))[0]? = some cexComponentC9 := rfl
    rw [updateAssemblyProgress_getElem?, h0, Option.map_some']
    have hl : componentLocalProgress 1 0 1 = 1 :=
      componentLocalProgress_at_one (by norm_num)
    simp [updateComponent, cexComponentC9, hl, easeOutExpo_one, lerpVectors_one]
  · intro h
    have hx : (1 : ℝ) = 0.01 := congrArg Vec3.x h
    norm_num at hx

/-- C5: for every pattern and every non-empty component list,
scatterComponents keeps the component at sort index 0 in place: its
scattered records become exact copies of its original records and its live
transform is not overwritten. -/
theorem scatterComponents_keeps_largest (pattern : Pattern) (rand : ℕ → ℝ)
    (bounds : Box3) (c0 : Component) (rest : List Component)
    (p : Vec3) (r : Euler) (s : Vec3)
    (h1 : c0.originalPosition = some p) (h2 : c0.originalRotation = some r)
    (h3 : c0.originalScale = some s) :
    ∃ c0s tail, scatterComponents pattern rand bounds (c0 :: rest) = some (c0s :: tail) ∧
      c0s.live = c0.live ∧
      c0s.scatteredPosition = c0.originalPosition ∧
      c0s.scatteredRotation = c0.originalRotation ∧
      c0s.scatteredScale = c0.originalScale := by
  refine ⟨{ c0 with scatteredPosition := some p, scatteredRotation := some r, scatteredScale := some s },
    scatterRest pattern rand (maxDim3 (boxGetSize bounds) * 10) (c0 :: rest).length 0 1 rest,
    ?_, rfl, h1.symm, h2.symm, h3.symm⟩
  simp only [scatterComponents, h1, h2, h3]

/-- C5 witness: the keep-in-place theorem applied to a singleton list with
the sphere pattern. -/
theorem scatterComponents_keeps_largest_witness :
    ∃ c0s tail,
      scatterComponents .sphere (fun _ => 0) none (witnessComponentC5 :: []) =
        some (c0s :: tail) ∧
      c0s.live = witnessComponentC5.live ∧
      c0s.scatteredPosition = witnessComponentC5.originalPosition ∧
      c0s.scatteredRotation = witnessComponentC5.originalRotation ∧
      c0s.scatteredScale = witnessComponentC5.originalScale :=
  scatterComponents_keeps_largest .sphere (fun _ => 0) none witnessComponentC5 []
    ⟨1, 2, 3⟩ ⟨0, 0, 0⟩ ⟨1, 1, 1⟩ rfl rfl rfl

/-- C6 (amended): with no candidate meshes the bounds stay empty, the
camera and controls target are untouched (frameModel takes its empty-bounds
early return) and there is no component to scatter, but processModel still
calls startAnimation unconditionally, so isAnimating is set to true even
for the empty model. -/
theorem processModel_empty_model (aspect now : ℝ) (rand : ℕ → ℝ) (st : AppState) :
    ∃ st2, processModel [] aspect now rand st = some st2 ∧
      st2.camera = st.camera ∧ st2.controlsTarget = st.controlsTarget ∧
      st2.components = [] ∧ st2.modelBounds = none ∧ st2.isAnimating = true :=
  ⟨_, processModel_nil aspect now rand st, rfl, rfl, rfl, rfl, rfl⟩

/-- C6 counterexample: starting from the initial state, processing an empty
model leaves isAnimating true, although the claim says the animation driver
is not started for an empty model. -/
theorem processModel_empty_still_starts_animation :
    cexInitState.isAnimating = false ∧
    (processModel [] 1 5 (fun _ => 0) cexInitState).map AppState.isAnimating = some true := by
  refine ⟨rfl, ?_⟩
  rw [processModel_nil]
  rfl

theorem sqrt_four : Real.sqrt 4 = 2 := by
  rw [show (4 : ℝ) = 2 ^ 2 by norm_num, Real.sqrt_sq (by norm_num : (0 : ℝ) ≤ 2)]

/-- C7: the size filter of processModel discards a candidate exactly when
its bounding diagonal is strictly below minComponentSize (2 percent of the
largest model dimension), so a candidate exactly at the threshold is
retained. -/
theorem sizeFilter_boundary_inclusive (cands : List Mesh) (m m2 : Mesh)
    (hm : m ∈ cands) (hd : aabbDiag m.box = minComponentSize cands) (hm2 : m2 ∈ cands) :
    m ∈ sizeFilter (minComponentSize cands) cands ∧
    (m2 ∈ sizeFilter (minComponentSize cands) cands ↔
      ¬ aabbDiag m2.box < minComponentSize cands) := by
  constructor
  · simp only [sizeFilter, List.mem_filter, Bool.not_eq_true', decide_eq_false_iff_not]
    exact ⟨hm, by rw [hd]; exact lt_irrefl _⟩
  · simp only [sizeFilter, List.mem_filter, Bool.not_eq_true', decide_eq_false_iff_not]
    exact ⟨fun h => h.2, fun h => ⟨hm2, h⟩⟩

/-- C7 witness: in a model of dimension 100, a mesh of diagonal exactly 2
(the 2 percent threshold) survives the size filter. -/
theorem sizeFilter_boundary_inclusive_witness :
    meshSmall ∈ sizeFilter (minComponentSize [meshBig, meshSmall]) [meshBig, meshSmall] :=
  (sizeFilter_boundary_inclusive [meshBig, meshSmall] meshSmall meshBig
    (by simp)
    (by norm_num [aabbDiag, meshSmall, meshBig, minComponentSize, candidateBounds,
      boxUnion, boxGetSize, maxDim3, vmin, vmax, sqrt_four])
    (by simp)).1

/-- C8 (amended): on non-empty bounds frameModel sets camera.top to
(maxDimension * 1.5) / 4 (the padded dimension is halved into frustumSize,
whose half is the top plane), bottom to the negation of top, left and right
to the aspect-scaled halves of frustumSize = (maxDimension * 1.5) / 2, and
resets zoom to 1. -/
theorem frameModel_frustum (st : AppState) (aspect : ℝ) (u : AABB)
    (hb : st.modelBounds = some u) :
    (frameModel aspect st).camera.top = maxDim3 (boxGetSize st.modelBounds) * 1.5 / 4 ∧
    (frameModel aspect st).camera.bottom = -((frameModel aspect st).camera.top) ∧
    (frameModel aspect st).camera.left =
      -(maxDim3 (boxGetSize st.modelBounds) * 1.5 / 2 * aspect) / 2 ∧
    (frameModel aspect st).camera.right =
      maxDim3 (boxGetSize st.modelBounds) * 1.5 / 2 * aspect / 2 ∧
    (frameModel aspect st).camera.zoom = 1 := by
  have he : boxIsEmpty st.modelBounds = false := by rw [hb]; rfl
  unfold frameModel
  rw [he]
  simp only [Bool.false_eq_true, if_false]
  refine ⟨by ring, by ring, by ring, by ring, by norm_num⟩

/-- C8 witness: the framing theorem applied to a state with bounds of
largest dimension 4. -/
theorem frameModel_frustum_witness :
    (frameModel 1 cexStateC8).camera.zoom = 1 :=
  (frameModel_frustum cexStateC8 1 ⟨⟨0, 0, 0⟩, ⟨4, 0, 0⟩⟩ rfl).2.2.2.2

/-- C8 counterexample: with largest dimension 4, frameModel sets camera.top
to 3/2, not to the claimed (maxDimension * 1.5) / 2 = 3. -/
theorem frameModel_half_height_counterexample :
    maxDim3 (boxGetSize cexStateC8.modelBounds) = 4 ∧
    (frameModel 1 cexStateC8).camera.top = 3 / 2 ∧
    (frameModel 1 cexStateC8).camera.top ≠ 4 * 1.5 / 2 := by
  have h4 : maxDim3 (boxGetSize cexStateC8.modelBounds) = 4 := by
    norm_num [cexStateC8, boxGetSize, maxDim3]
  have ht : (frameModel 1 cexStateC8).camera.top = 3 / 2 := by
    norm_num [frameModel, cexStateC8, boxIsEmpty, boxGetSize, maxDim3]
  exact ⟨h4, ht, by rw [ht]; norm_num⟩
